import Mathlib

/-!
# Verification of the pinnacle compositor control plane

Shallow embedding of the control-plane core of the `pinnacle` Wayland
compositor: the libinput device-settings registry
(`src/input/libinput.rs`), the config process lifecycle
(`src/config.rs`), the control-socket hot-swap (`src/state.rs`), the
layout streaming handler (`src/api/layout.rs`), and the deferred
scheduler (`src/state.rs`).

Devices, transports, subprocess handles, keybind entries and sources
are identified by natural numbers (the Rust values compare by
identity); filter predicates and environments are abstract functions,
matching the closures the Rust code stores.
-/

namespace Pinnacle

/-! ## Device settings registry (`src/input/libinput.rs`) -/

/-- A libinput device, identified by identity (the Rust `Device` handles
compare equal iff they refer to the same underlying libinput device;
applying a setting mutates the device's configuration, not its
identity, and filters match on immutable device properties). -/
abbrev Device := Nat

/-- One entry of a settings category: a filter predicate over devices
paired with a setting-application function, identified by `id` so the
application log can record which setting ran. Mirrors the
`(filter, setting)` pairs stored in `libinput_settings`. -/
structure SettingEntry where
  filter : Device → Bool
  id : Nat
deriving Inhabited

/-- The input state touched by `apply_libinput_settings`:
`libinput_devices` is the configured-device list and
`libinput_settings` maps each settings category to its entry list in
insertion (registration) order, oldest first, exactly as the Rust
`Vec` push order. -/
structure InputState where
  libinput_devices : List Device
  libinput_settings : List (List SettingEntry)
deriving Inhabited

/-- The events of `InputEvent` that `apply_libinput_settings`
distinguishes: `DeviceAdded`, `DeviceRemoved`, and everything else. -/
inductive InputEvent where
  | deviceAdded (d : Device)
  | deviceRemoved (d : Device)
  | other
deriving Inhabited

/-- The inner `for (filter, setting) in settings.iter().rev()` loop
body: scan the given (already reversed) entry list, apply the first
entry whose filter matches and stop. Returns the id of the applied
setting, if any. -/
def applyFirstMatch : List SettingEntry → Device → Option Nat
  | [], _ => none
  | e :: rest, d => if e.filter d then some e.id else applyFirstMatch rest d

/-- One settings category applied to a device: the Rust loop iterates
the category's entries in reverse registration order
(`settings.iter().rev()`). -/
def applyCategory (entries : List SettingEntry) (d : Device) : Option Nat :=
  applyFirstMatch entries.reverse d

/-- `Pinnacle::apply_libinput_settings` (src/input/libinput.rs:7-33) as
a state transformer. Returns the new input state together with the
list of setting ids applied, one per category that had a matching
entry, in category order. On `DeviceAdded`: if the device is already
in `libinput_devices`, return unchanged with nothing applied;
otherwise apply each category's first reverse-scan match and then push
the device. On `DeviceRemoved`: retain all devices not equal to it. -/
def applyLibinputSettings (st : InputState) (ev : InputEvent) :
    InputState × List Nat :=
  match ev with
  | .deviceAdded d =>
    if st.libinput_devices.contains d then
      (st, [])
    else
      let applied := st.libinput_settings.filterMap (fun cat => applyCategory cat d)
      ({ st with libinput_devices := st.libinput_devices ++ [d] }, applied)
  | .deviceRemoved d =>
    ({ st with libinput_devices := st.libinput_devices.filter (fun dev => dev ≠ d) }, [])
  | .other => (st, [])

/-! ## Config process lifecycle (`src/config.rs`) -/

/-- An output together with its per-output tag state (`output.with_state`
exposes `state.tags`). Tags are identified by their `TagId`. -/
structure OutputSt where
  name : String
  tags : List Nat
deriving Inhabited, DecidableEq

/-- `ConfigReturn` (src/config.rs:214-219): what a successful
`start_config` hands back. Keybinds are `(ModifierMask, keysym)` pairs
as bit-mask/code numbers; the child handle and socket source are
identified by identity. -/
structure ConfigReturn where
  reload_keybind : Nat × Nat
  kill_keybind : Nat × Nat
  config_child_handle : Nat
  socket_source : Nat
deriving Inhabited

/-- Outcome of `Child::kill` on the old config subprocess. -/
inductive KillResult where
  | ok
  | err (msg : String)
deriving Inhabited

/-- The slice of `State` that `restart_config` reads and writes.
`next_tag_id` models the global `TagId` allocator (`TagId::reset`
returns it to its initial value, modelled from the spec: `src/tag.rs`
is not in scope, and the spec says reset restores the allocator's
initial state, taken as `0`). `registered_sources` models the set of
calloop source registration tokens currently installed in the reactor
(`loop_handle.insert_source` adds one, `loop_handle.remove` removes
one). `kill_attempts` logs each subprocess handle `kill` was invoked
on, and `log` collects warning messages. -/
structure CompositorState where
  outputs : List OutputSt
  next_tag_id : Nat
  keybinds : List Nat
  mousebinds : List Nat
  window_rules : List Nat
  reload_keybind : Nat × Nat
  kill_keybind : Nat × Nat
  config_process : Nat
  socket_token : Nat
  registered_sources : List Nat
  kill_attempts : List Nat
  log : List String
deriving Inhabited

/-- `State::restart_config` (src/config.rs:222-274) as a state
transformer. The outcomes of the two effectful calls are parameters:
`killRes` is what `config_process.kill()` returns and `startRes` is
what `start_config` returns (`Except.error` models the `?` early
return; the Rust receiver is `&mut self`, so mutations made before the
`?` persist, which the returned state records). Step order follows the
source: clear every output's tags, reset the tag allocator, clear
keybinds, mousebinds and window rules, kill the old config (a failure
only logs a warning), remove the old socket source, then run
`start_config`; on success insert the new socket source and install
the new keybinds, child handle and socket token. -/
def restartConfig (st : CompositorState) (killRes : KillResult)
    (startRes : Except String ConfigReturn) :
    CompositorState × Except String Unit :=
  let st := { st with outputs := st.outputs.map (fun (o : OutputSt) => { o with tags := [] }) }
  let st := { st with next_tag_id := 0 }
  let st := { st with keybinds := [], mousebinds := [], window_rules := [] }
  let st := { st with kill_attempts := st.kill_attempts ++ [st.config_process] }
  let st :=
    match killRes with
    | .ok => st
    | .err msg => { st with log := st.log ++ ["Error when killing old config: " ++ msg] }
  let st := { st with registered_sources := st.registered_sources.erase st.socket_token }
  match startRes with
  | .error e => (st, .error e)
  | .ok cr =>
    let token := cr.socket_source
    let st := { st with registered_sources := st.registered_sources ++ [token] }
    let st := { st with
      reload_keybind := cr.reload_keybind
      kill_keybind := cr.kill_keybind
      config_process := cr.config_child_handle
      socket_token := token }
    (st, .ok ())

/-! ## Control-socket hot-swap (`src/state.rs:224-237`) -/

/-- The `ApiState.stream` slot plus an observation log of shutdown
calls. Transports (accepted `UnixStream`s) are identified by identity;
`shutdownLog` records, in order, each transport on which
`shutdown(Shutdown::Both)` was invoked. -/
structure StreamState where
  stream : Option Nat
  shutdownLog : List Nat
deriving Inhabited, DecidableEq

/-- The callback run on one connection-accept event, modelled from the
spec's accept-event stream (the `PinnacleSocketSource` internals are
not in scope); the body follows src/src/state.rs:224-237: replace
`ApiState.stream` with the new transport and, if a previous transport
was present, shut it down for both reading and writing. -/
def acceptStream (s : StreamState) (new : Nat) : StreamState :=
  match s.stream with
  | some old => { stream := some new, shutdownLog := s.shutdownLog ++ [old] }
  | none => { stream := some new, shutdownLog := s.shutdownLog }

/-- A whole sequence of connection-accept events, in order. -/
def acceptAll (s : StreamState) (ts : List Nat) : StreamState :=
  ts.foldl acceptStream s

/-! ## Command-line construction (`src/config.rs:157-161`) -/

/-- Rust `str::split(' ')` over the characters of the command string:
pieces are separated by single space characters, empty pieces are
kept, and the empty string yields one empty piece (so the iterator is
never empty). -/
def splitOnSpace : List Char → List (List Char)
  | [] => [[]]
  | c :: rest =>
    match splitOnSpace rest with
    | [] => [[]]
    | t :: ts => if c = ' ' then [] :: t :: ts else (c :: t) :: ts

/-- Rejoin pieces with single spaces (inverse of `splitOnSpace`). -/
def joinSpace : List (List Char) → List Char
  | [] => []
  | [t] => t
  | t :: ts => t ++ ' ' :: joinSpace ts

/-- Command-line construction in `start_config` (src/config.rs:157-161):
`metaconfig.command.split(' ')`, then `command.next()` is the program
(`None` is reported as the error `command in metaconfig.toml was
empty`) and the remaining iterator items are the arguments. -/
def splitCommand (cmd : List Char) : Option (List Char × List (List Char)) :=
  match splitOnSpace cmd with
  | [] => none
  | p :: args => some (p, args)

/-- Split on any whitespace character, keeping empty pieces. -/
def splitOnWs : List Char → List (List Char)
  | [] => [[]]
  | c :: rest =>
    match splitOnWs rest with
    | [] => [[]]
    | t :: ts => if c.isWhitespace then [] :: t :: ts else (c :: t) :: ts

/-- Whitespace tokenization as the claim's words describe it ("splits
the string on whitespace into tokens"): maximal whitespace-free runs,
no empty tokens, so the empty string yields no tokens. Stated from the
spec for refinement comparison with `splitCommand`. -/
def whitespaceTokens (l : List Char) : List (List Char) :=
  (splitOnWs l).filter (fun t => !t.isEmpty)

/-- The claim's version of command-line construction: whitespace
tokens, first token the program, error when there is no token. Stated
from the spec for refinement comparison with `splitCommand`. -/
def splitCommandClaim (cmd : List Char) : Option (List Char × List (List Char)) :=
  match whitespaceTokens cmd with
  | [] => none
  | p :: args => some (p, args)

/-! ## Environment-variable expansion (`src/config.rs:165-186`) -/

/-- The variable-lookup context the code passes to
`shellexpand::full_with_context` (src/config.rs:173-178): look the
variable up in the process environment and expand a nonexistent
variable to the empty string instead of failing. `env` is the process
environment. -/
def shellContext (env : String → Option String) (var : String) : List Char :=
  ((env var).getD "").data

/-- Shell-style `$\x7bVAR\x7d` expansion, modelled from the spec
(`shellexpand` is an external crate): scanning left to right, a
`$\x7bVAR\x7d` reference is replaced by the context's result for
`VAR`; all other characters pass through unchanged (an unterminated
reference is kept literally). The second argument accumulates the
characters of the variable name currently being read, in reverse,
once a `$\x7b` has been seen. -/
def expandAux (env : String → Option String) :
    List Char → Option (List Char) → List Char
  | [], none => []
  | [], some acc => '$' :: '{' :: acc.reverse
  | c :: rest, some acc =>
    if c = '}' then shellContext env (String.mk acc.reverse) ++ expandAux env rest none
    else expandAux env rest (some (c :: acc))
  | c :: rest, none =>
    if c = '$' then
      match rest with
      | [] => ['$']
      | c2 :: rest2 =>
        if c2 = '{' then expandAux env rest2 (some [])
        else c :: expandAux env (c2 :: rest2) none
    else c :: expandAux env rest none

/-- Expansion of a whole override value, as applied to each declared
`envs` entry in `start_config` (src/config.rs:165-186). -/
def expandVars (env : String → Option String) (l : List Char) : List Char :=
  expandAux env l none

/-- String-level wrapper for `expandVars`. -/
def expandString (env : String → Option String) (s : String) : String :=
  String.mk (expandVars env s.data)

/-! ## Layout streaming handler (`src/api/layout.rs:46-55`) -/

/-- The slice of state the `ExplicitLayout` arm touches: the names of
the outputs known to the compositor, the currently focused output if
any, and a log of the outputs passed to `request_layout`, in order. -/
structure LayoutModelState where
  outputs : List String
  focused : Option String
  layoutRequests : List String
deriving Inhabited, DecidableEq

/-- `OutputName::output(state)`, modelled from the spec (the output
module is not in scope): resolve a name to the known output carrying
that name, if any. -/
def outputByName (st : LayoutModelState) (name : String) : Option String :=
  st.outputs.find? (fun o => o = name)

/-- The `ExplicitLayout` arm of `LayoutService::layout`
(src/api/layout.rs:46-55): resolve `output_name` via
`OutputName::output`, `or_else` fall back to the focused output, and
call `request_layout` on the result; when nothing resolves the
request is dropped with no effect. -/
def handleExplicitLayout (st : LayoutModelState) (output_name : Option String) :
    LayoutModelState :=
  let resolved :=
    match output_name.bind (fun n => outputByName st n) with
    | some o => some o
    | none => st.focused
  match resolved with
  | some o => { st with layoutRequests := st.layoutRequests ++ [o] }
  | none => st

/-- The claim's resolution rule, stated from the spec for refinement
comparison: the named output when a name is given, the focused output
only when no name is given, otherwise a silent drop. -/
def handleExplicitLayoutClaim (st : LayoutModelState) (output_name : Option String) :
    LayoutModelState :=
  match output_name with
  | some n =>
    match outputByName st n with
    | some o => { st with layoutRequests := st.layoutRequests ++ [o] }
    | none => st
  | none =>
    match st.focused with
    | some o => { st with layoutRequests := st.layoutRequests ++ [o] }
    | none => st

/-- The amended resolution rule: the named output if it resolves;
otherwise — also when a name was given but matches no output — the
focused output if any; otherwise a silent drop with no state change. -/
def handleExplicitLayoutAmended (st : LayoutModelState) (output_name : Option String) :
    LayoutModelState :=
  match output_name with
  | some n =>
    match outputByName st n with
    | some o => { st with layoutRequests := st.layoutRequests ++ [o] }
    | none =>
      match st.focused with
      | some o => { st with layoutRequests := st.layoutRequests ++ [o] }
      | none => st
  | none =>
    match st.focused with
    | some o => { st with layoutRequests := st.layoutRequests ++ [o] }
    | none => st

/-! ## Deferred scheduler (`src/state.rs:141-154`) -/

/-- `schedule(data, condition, run)` (src/state.rs:141-154) over an
explicit reactor-turn counter. The idle-queue timing is modelled from
the spec: an idle callback inserted during turn `t` runs on turn
`t + 1` (a subsequent turn, never the same one). `cond t` is the
predicate's value against the state current at turn `t`; `schedule` is
invoked during turn `t`; `fuel` bounds the number of evaluations so
the busy-poll recursion is total. The result is the list of turns at
which `run` executes: if the condition holds now, `run` executes this
turn; otherwise the re-invocation is deferred to the next turn. -/
def scheduleRuns (cond : Nat → Bool) (t : Nat) : Nat → List Nat
  | 0 => []
  | fuel + 1 => if cond t then [t] else scheduleRuns cond (t + 1) fuel

/-! ## Helper lemmas -/

/-- A reverse scan skips a prefix none of whose filters match. -/
theorem applyFirstMatch_append_no_match (d : Device) :
    ∀ (pre l : List SettingEntry), (∀ e ∈ pre, e.filter d = false) →
      applyFirstMatch (pre ++ l) d = applyFirstMatch l d := by
  intro pre
  induction pre with
  | nil => intro l _; rfl
  | cons e rest ih =>
    intro l h
    have he : e.filter d = false := h e (List.mem_cons_self e rest)
    simp only [List.cons_append, applyFirstMatch, he]
    exact ih l (fun e' he' => h e' (List.mem_cons_of_mem e he'))

/-- `getLast?` of a nonempty list through `getLastD`. -/
theorem getLast?_cons_eq_getLastD {α : Type} (a : α) :
    ∀ (l : List α), (a :: l).getLast? = some (l.getLastD a) := by
  intro l
  induction l generalizing a with
  | nil => rfl
  | cons b l' ih => rw [List.getLast?_cons_cons, ih b, List.getLastD_cons]

/-- Accepting a sequence of connections starting from an installed
transport: the last one ends up installed and every displaced one is
shut down, in order. -/
theorem acceptAll_from_some :
    ∀ (ts : List Nat) (old : Nat) (log : List Nat),
      acceptAll ⟨some old, log⟩ ts =
        ⟨some (ts.getLastD old), log ++ (old :: ts).dropLast⟩ := by
  intro ts
  induction ts with
  | nil => intro old log; simp [acceptAll]
  | cons t rest ih =>
    intro old log
    have hstep : acceptAll ⟨some old, log⟩ (t :: rest) =
        acceptAll ⟨some t, log ++ [old]⟩ rest := by
      simp [acceptAll, acceptStream, List.foldl_cons]
    rw [hstep, ih t (log ++ [old]), List.getLastD_cons, List.dropLast_cons₂]
    simp

/-! ## Claim theorems -/

/-- C1. On a device-added event for an unconfigured device, each
category's entry list is scanned most-recently-registered first and
exactly the first matching entry is applied: with `e1` registered
earlier and `e2` registered later in the same category, both matching
`d`, and no entry registered after `e2` matching `d`, only `e2`'s
setting is applied, and the device is then recorded as configured. -/
theorem apply_libinput_settings_most_recent_match_wins
    (devices : List Device) (l1 l2 l3 : List SettingEntry) (e1 e2 : SettingEntry)
    (d : Device) (hnot : d ∉ devices) (h1 : e1.filter d = true)
    (h2 : e2.filter d = true) (h3 : ∀ e ∈ l3, e.filter d = false) :
    applyLibinputSettings ⟨devices, [l1 ++ e1 :: (l2 ++ e2 :: l3)]⟩ (.deviceAdded d) =
      (⟨devices ++ [d], [l1 ++ e1 :: (l2 ++ e2 :: l3)]⟩, [e2.id]) := by
  have hrev : (l1 ++ e1 :: (l2 ++ e2 :: l3)).reverse =
      l3.reverse ++ e2 :: (l2.reverse ++ e1 :: l1.reverse) := by
    simp
  have hcat : applyCategory (l1 ++ e1 :: (l2 ++ e2 :: l3)) d = some e2.id := by
    rw [applyCategory, hrev,
      applyFirstMatch_append_no_match d l3.reverse _
        (fun e he => h3 e (List.mem_reverse.mp he))]
    simp [applyFirstMatch, h2]
  simp [applyLibinputSettings, hnot, hcat]

/-- C1 witness: a registry with two matching entries, the later one
(id 2) winning. -/
theorem apply_libinput_settings_most_recent_match_wins_witness :
    applyLibinputSettings
        ⟨[9], [[⟨fun d => d = 7, 1⟩, ⟨fun d => d % 2 = 1, 2⟩]]⟩ (.deviceAdded 7) =
      (⟨[9, 7], [[⟨fun d => d = 7, 1⟩, ⟨fun d => d % 2 = 1, 2⟩]]⟩, [2]) :=
  apply_libinput_settings_most_recent_match_wins
    [9] [] [] [] ⟨fun d => d = 7, 1⟩ ⟨fun d => d % 2 = 1, 2⟩ 7
    (by decide) (by decide) (by decide) (by intro e h; cases h)

/-- C2. Device-added is idempotent: a device already recorded as
configured gets no settings applied and leaves the state unchanged;
processing the same device-added event twice makes the second
occurrence a no-op; and on the first occurrence the device is recorded
as configured (appended to the configured list) after the category
scan, which ran against the pre-event state. -/
theorem apply_libinput_settings_idempotent (st : InputState) (d : Device) :
    (d ∈ st.libinput_devices → applyLibinputSettings st (.deviceAdded d) = (st, [])) ∧
    applyLibinputSettings (applyLibinputSettings st (.deviceAdded d)).1 (.deviceAdded d) =
      ((applyLibinputSettings st (.deviceAdded d)).1, []) ∧
    (d ∉ st.libinput_devices →
      (applyLibinputSettings st (.deviceAdded d)).1.libinput_devices =
        st.libinput_devices ++ [d]) := by
  refine ⟨?_, ?_, ?_⟩
  · intro h
    simp [applyLibinputSettings, h]
  · by_cases h : d ∈ st.libinput_devices
    · simp [applyLibinputSettings, h]
    · have hmem : d ∈ st.libinput_devices ++ [d] := by simp
      simp [applyLibinputSettings, h, hmem]
  · intro h
    simp [applyLibinputSettings, h]

/-- C2 witness: device 5 already configured is a no-op; device 6 not
yet configured is recorded, and its second event is a no-op. -/
theorem apply_libinput_settings_idempotent_witness :
    (5 ∈ [5] →
      applyLibinputSettings ⟨[5], [[⟨fun _ => true, 1⟩]]⟩ (.deviceAdded 5) =
        (⟨[5], [[⟨fun _ => true, 1⟩]]⟩, [])) ∧
    ((6 : Device) ∉ [5] →
      (applyLibinputSettings ⟨[5], [[⟨fun _ => true, 1⟩]]⟩ (.deviceAdded 6)).1.libinput_devices =
        [5] ++ [6]) ∧
    applyLibinputSettings
        (applyLibinputSettings ⟨[5], [[⟨fun _ => true, 1⟩]]⟩ (.deviceAdded 6)).1
        (.deviceAdded 6) =
      ((applyLibinputSettings ⟨[5], [[⟨fun _ => true, 1⟩]]⟩ (.deviceAdded 6)).1, []) :=
  ⟨(apply_libinput_settings_idempotent ⟨[5], [[⟨fun _ => true, 1⟩]]⟩ 5).1,
   (apply_libinput_settings_idempotent ⟨[5], [[⟨fun _ => true, 1⟩]]⟩ 6).2.2,
   (apply_libinput_settings_idempotent ⟨[5], [[⟨fun _ => true, 1⟩]]⟩ 6).2.1⟩

/-- C4. Over any sequence of connection-accept events starting from an
empty `ApiState.stream` slot, exactly the last accepted transport
remains installed, every prior transport has shutdown invoked exactly
once, in acceptance order, and each single accept installs the new
transport while shutting down the displaced one if present. -/
theorem socket_accept_at_most_one_transport (ts : List Nat) :
    (acceptAll ⟨none, []⟩ ts).stream = ts.getLast? ∧
    (acceptAll ⟨none, []⟩ ts).shutdownLog = ts.dropLast ∧
    (∀ s new, (acceptStream s new).stream = some new ∧
      (acceptStream s new).shutdownLog =
        s.shutdownLog ++ (match s.stream with | some old => [old] | none => [])) := by
  refine ⟨?_, ?_, ?_⟩
  · cases ts with
    | nil => rfl
    | cons t rest =>
      have hstep : acceptAll ⟨none, []⟩ (t :: rest) = acceptAll ⟨some t, []⟩ rest := by
        simp [acceptAll, acceptStream, List.foldl_cons]
      rw [hstep, acceptAll_from_some, getLast?_cons_eq_getLastD]
  · cases ts with
    | nil => rfl
    | cons t rest =>
      have hstep : acceptAll ⟨none, []⟩ (t :: rest) = acceptAll ⟨some t, []⟩ rest := by
        simp [acceptAll, acceptStream, List.foldl_cons]
      rw [hstep, acceptAll_from_some]
      simp
  · intro s new
    cases h : s.stream with
    | none => simp [acceptStream, h]
    | some old => simp [acceptStream, h]

/-- C3. After a successful restart (kill outcome irrelevant), every
output's tag set is empty, the keybind, mousebind and window-rule
collections are empty, and the tag-identifier allocator is back at its
initial value. -/
theorem restart_config_success_clears_state (st : CompositorState) (k : KillResult)
    (cr : ConfigReturn) :
    (∀ o ∈ (restartConfig st k (.ok cr)).1.outputs, o.tags = []) ∧
    (restartConfig st k (.ok cr)).1.keybinds = [] ∧
    (restartConfig st k (.ok cr)).1.mousebinds = [] ∧
    (restartConfig st k (.ok cr)).1.window_rules = [] ∧
    (restartConfig st k (.ok cr)).1.next_tag_id = 0 ∧
    (restartConfig st k (.ok cr)).2 = .ok () := by
  cases k <;> simp [restartConfig]

/-- C3 witness: a concrete state with populated tags, binds and rules,
fully cleared by a successful restart. -/
theorem restart_config_success_clears_state_witness :
    (∀ o ∈ (restartConfig ⟨[⟨"eDP-1", [1, 2]⟩], 5, [1], [2], [3], (1, 2), (3, 4),
        10, 20, [20], [], []⟩ .ok (.ok ⟨(7, 8), (9, 10), 11, 30⟩)).1.outputs, o.tags = []) ∧
    (restartConfig ⟨[⟨"eDP-1", [1, 2]⟩], 5, [1], [2], [3], (1, 2), (3, 4),
        10, 20, [20], [], []⟩ .ok (.ok ⟨(7, 8), (9, 10), 11, 30⟩)).1.keybinds = [] ∧
    (restartConfig ⟨[⟨"eDP-1", [1, 2]⟩], 5, [1], [2], [3], (1, 2), (3, 4),
        10, 20, [20], [], []⟩ .ok (.ok ⟨(7, 8), (9, 10), 11, 30⟩)).1.next_tag_id = 0 :=
  ⟨(restart_config_success_clears_state _ _ _).1,
   (restart_config_success_clears_state _ _ _).2.1,
   (restart_config_success_clears_state _ _ _).2.2.2.2.1⟩

/-- C9. A failure to kill the old config subprocess is only logged:
the restart's result and every part of the post-state other than the
warning log are identical to what a successful kill produces. -/
theorem restart_config_kill_failure_not_fatal (st : CompositorState) (e : String)
    (sr : Except String ConfigReturn) :
    (restartConfig st (.err e) sr).2 = (restartConfig st .ok sr).2 ∧
    (restartConfig st (.err e) sr).1 =
      { (restartConfig st .ok sr).1 with
          log := (restartConfig st .ok sr).1.log ++
            ["Error when killing old config: " ++ e] } := by
  cases sr <;> exact ⟨rfl, rfl⟩

/-- C10. `restart_config` is not atomic on error: when `start_config`
fails, the function returns that error while the teardown already
happened — tags, keybinds, mousebinds and window rules cleared, the
tag allocator reset, the old subprocess killed, the old socket source
deregistered — and nothing new was installed: the stale subprocess
handle, keybinds and socket token are still the old ones and no new
socket source was registered. -/
theorem restart_config_error_not_atomic (st : CompositorState) (k : KillResult)
    (e : String) :
    (restartConfig st k (.error e)).2 = .error e ∧
    (∀ o ∈ (restartConfig st k (.error e)).1.outputs, o.tags = []) ∧
    (restartConfig st k (.error e)).1.keybinds = [] ∧
    (restartConfig st k (.error e)).1.mousebinds = [] ∧
    (restartConfig st k (.error e)).1.window_rules = [] ∧
    (restartConfig st k (.error e)).1.next_tag_id = 0 ∧
    (restartConfig st k (.error e)).1.kill_attempts =
      st.kill_attempts ++ [st.config_process] ∧
    (restartConfig st k (.error e)).1.registered_sources =
      st.registered_sources.erase st.socket_token ∧
    (restartConfig st k (.error e)).1.config_process = st.config_process ∧
    (restartConfig st k (.error e)).1.reload_keybind = st.reload_keybind ∧
    (restartConfig st k (.error e)).1.kill_keybind = st.kill_keybind ∧
    (restartConfig st k (.error e)).1.socket_token = st.socket_token := by
  cases k <;> simp [restartConfig]

/-- C10 witness: a concrete failed restart leaves cleared state, a
kill attempt on the old process, and the stale handle and token. -/
theorem restart_config_error_not_atomic_witness :
    (restartConfig ⟨[⟨"eDP-1", [1, 2]⟩], 5, [1], [2], [3], (1, 2), (3, 4),
        10, 20, [20], [], []⟩ .ok (.error "no metaconfig")).2 = .error "no metaconfig" ∧
    (restartConfig ⟨[⟨"eDP-1", [1, 2]⟩], 5, [1], [2], [3], (1, 2), (3, 4),
        10, 20, [20], [], []⟩ .ok (.error "no metaconfig")).1.kill_attempts = [] ++ [10] ∧
    (restartConfig ⟨[⟨"eDP-1", [1, 2]⟩], 5, [1], [2], [3], (1, 2), (3, 4),
        10, 20, [20], [], []⟩ .ok (.error "no metaconfig")).1.config_process = 10 :=
  ⟨(restart_config_error_not_atomic _ _ _).1,
   (restart_config_error_not_atomic _ _ _).2.2.2.2.2.2.1,
   (restart_config_error_not_atomic _ _ _).2.2.2.2.2.2.2.2.1⟩

/-- Expansion step: an ordinary character outside a reference passes
through unchanged. -/
theorem expandAux_cons_none (env : String → Option String) (c : Char) (rest : List Char)
    (hc : c ≠ '$') : expandAux env (c :: rest) none = c :: expandAux env rest none := by
  rw [expandAux.eq_def]
  simp [hc]

/-- Expansion step: inside a reference, a non-brace character is
accumulated onto the variable name. -/
theorem expandAux_cons_some (env : String → Option String) (c : Char)
    (rest acc : List Char) (hc : c ≠ '}') :
    expandAux env (c :: rest) (some acc) = expandAux env rest (some (c :: acc)) := by
  rw [expandAux.eq_def]
  simp [hc]

/-- Expansion step: the closing brace ends the reference and emits the
context's result for the accumulated name. -/
theorem expandAux_close (env : String → Option String) (rest acc : List Char) :
    expandAux env ('}' :: rest) (some acc) =
      shellContext env (String.mk acc.reverse) ++ expandAux env rest none := by
  rw [expandAux.eq_def]
  simp

/-- Expansion step: a dollar-brace pair enters reference mode. -/
theorem expandAux_enter (env : String → Option String) (rest : List Char) :
    expandAux env ('$' :: '{' :: rest) none = expandAux env rest (some []) := by
  rw [expandAux.eq_def]
  simp

/-- Characters other than `$` pass through expansion unchanged. -/
theorem expandAux_passthrough (env : String → Option String) :
    ∀ (pre rest : List Char), '$' ∉ pre →
      expandAux env (pre ++ rest) none = pre ++ expandAux env rest none := by
  intro pre
  induction pre with
  | nil => intro rest _; rfl
  | cons c cs ih =>
    intro rest h
    have hc : c ≠ '$' := fun hc => h (hc ▸ List.mem_cons_self c cs)
    rw [List.cons_append, expandAux_cons_none env c _ hc,
      ih rest (fun hm => h (List.mem_cons_of_mem c hm)), List.cons_append]

/-- Scanning a brace-delimited variable name: the whole reference is
replaced by the context's result for the accumulated name. -/
theorem expandAux_var_scan (env : String → Option String) :
    ∀ (v : List Char) (acc rest : List Char), '}' ∉ v →
      expandAux env (v ++ '}' :: rest) (some acc) =
        shellContext env (String.mk (acc.reverse ++ v)) ++ expandAux env rest none := by
  intro v
  induction v with
  | nil =>
    intro acc rest _
    rw [List.nil_append, expandAux_close]
    simp
  | cons c cs ih =>
    intro acc rest h
    have hc : c ≠ '}' := fun hc => h (hc ▸ List.mem_cons_self c cs)
    rw [List.cons_append, expandAux_cons_some env c _ acc hc,
      ih (c :: acc) rest (fun hm => h (List.mem_cons_of_mem c hm))]
    simp

/-- C5. Expansion of an environment-override value substitutes the
empty string for a reference to an undefined variable instead of
failing: a `$\x7bVAR\x7d` reference to a variable absent from the
environment contributes nothing to the output, and in particular
`prefix-$\x7bUNDEFINED_VAR\x7d-suffix` expands to `prefix--suffix`
whenever `UNDEFINED_VAR` is undefined. -/
theorem env_expansion_undefined_var_empty :
    (∀ (env : String → Option String) (v rest : List Char), '}' ∉ v →
      env (String.mk v) = none →
      expandVars env ('$' :: '{' :: (v ++ '}' :: rest)) = expandVars env rest) ∧
    (∀ env : String → Option String, env "UNDEFINED_VAR" = none →
      expandString env "prefix-$\x7bUNDEFINED_VAR\x7d-suffix" = "prefix--suffix") := by
  have href : ∀ (env : String → Option String) (v rest : List Char), '}' ∉ v →
      env (String.mk v) = none →
      expandVars env ('$' :: '{' :: (v ++ '}' :: rest)) = expandVars env rest := by
    intro env v rest hv henv
    rw [expandVars, expandAux_enter, expandAux_var_scan env v [] rest hv]
    simp [shellContext, henv, expandVars]
  refine ⟨href, ?_⟩
  intro env henv
  have hdecomp : ("prefix-$\x7bUNDEFINED_VAR\x7d-suffix").data =
      "prefix-".data ++ ('$' :: '{' :: ("UNDEFINED_VAR".data ++ '}' :: "-suffix".data)) := by
    rfl
  have hpre : ('$' : Char) ∉ "prefix-".data := by decide
  have hv : ('}' : Char) ∉ "UNDEFINED_VAR".data := by decide
  have henv' : env (String.mk ("UNDEFINED_VAR".data)) = none := henv
  have hsuf : expandAux env ("-suffix".data ++ []) none =
      "-suffix".data ++ expandAux env [] none :=
    expandAux_passthrough env "-suffix".data [] (by decide)
  have : expandVars env ("prefix-$\x7bUNDEFINED_VAR\x7d-suffix").data =
      "prefix-".data ++ "-suffix".data := by
    rw [expandVars] at *
    rw [hdecomp, expandAux_passthrough env "prefix-".data _ hpre]
    have h2 := href env ("UNDEFINED_VAR".data) ("-suffix".data) hv henv'
    rw [expandVars, expandVars] at h2
    rw [h2]
    simpa using hsuf
  rw [expandString, this]
  rfl

/-- C5 witness: the documented example against the empty environment. -/
theorem env_expansion_undefined_var_empty_witness :
    ((fun _ => none : String → Option String) "UNDEFINED_VAR" = none) ∧
    expandString (fun _ => none) "prefix-$\x7bUNDEFINED_VAR\x7d-suffix" = "prefix--suffix" :=
  ⟨rfl, env_expansion_undefined_var_empty.2 (fun _ => none) rfl⟩

/-- `joinSpace` peels a leading character off the first piece. -/
theorem joinSpace_cons_head (c : Char) (p : List Char) (args : List (List Char)) :
    joinSpace ((c :: p) :: args) = c :: joinSpace (p :: args) := by
  cases args <;> rfl

/-- `splitOnSpace` always yields at least one piece, the pieces are
space-free, and rejoining them with single spaces restores the input. -/
theorem splitOnSpace_spec :
    ∀ l : List Char, ∃ p args, splitOnSpace l = p :: args ∧
      joinSpace (p :: args) = l ∧ ' ' ∉ p ∧ ∀ a ∈ args, ' ' ∉ a := by
  intro l
  induction l with
  | nil => exact ⟨[], [], rfl, rfl, by simp, by simp⟩
  | cons c rest ih =>
    obtain ⟨p, args, hsplit, hjoin, hp, hargs⟩ := ih
    by_cases hc : c = ' '
    · refine ⟨[], p :: args, ?_, ?_, by simp, ?_⟩
      · simp [splitOnSpace, hsplit, hc]
      · show joinSpace ([] :: p :: args) = c :: rest
        rw [show joinSpace ([] :: p :: args) = ' ' :: joinSpace (p :: args) from rfl,
          hjoin, hc]
      · intro a ha
        rcases List.mem_cons.mp ha with h | h
        · exact h ▸ hp
        · exact hargs a h
    · refine ⟨c :: p, args, ?_, ?_, ?_, hargs⟩
      · simp [splitOnSpace, hsplit, hc]
      · rw [joinSpace_cons_head, hjoin]
      · intro hm
        rcases List.mem_cons.mp hm with h | h
        · exact hc h.symm
        · exact hp h

/-- C6 counterexample. The code's split is `command.split(' ')`, whose
iterator always yields at least one item: the empty command string
yields the empty program token rather than the documented error, and a
tab does not separate tokens, refuting both the error clause and the
split-on-whitespace clause of the claim. -/
theorem split_command_counterexample :
    splitCommand [] = some ([], []) ∧ splitCommandClaim [] = none ∧
    splitCommand ['a', '\t', 'b'] = some (['a', '\t', 'b'], []) ∧
    splitCommandClaim ['a', '\t', 'b'] = some (['a'], [['b']]) := by
  refine ⟨rfl, rfl, rfl, ?_⟩
  rfl

/-- C6 amended. The command string is split on single space characters
(not general whitespace, and with no shell quoting): the pieces are
space-free and rejoining them with single spaces restores the string
exactly; the first piece — possibly empty — is the program and the
remaining pieces (including empty ones from consecutive spaces) are
the arguments; the split always yields a program piece, so the
empty-command error branch never fires. -/
theorem split_command_amended (cmd : List Char) :
    ∃ p args, splitCommand cmd = some (p, args) ∧
      joinSpace (p :: args) = cmd ∧ ' ' ∉ p ∧ ∀ a ∈ args, ' ' ∉ a := by
  obtain ⟨p, args, hsplit, hjoin, hp, hargs⟩ := splitOnSpace_spec cmd
  exact ⟨p, args, by simp [splitCommand, hsplit], hjoin, hp, hargs⟩

/-- C6 amended witness: `alacritty -e fish` splits into the program and
two arguments that rejoin to the original string. -/
theorem split_command_amended_witness :
    ∃ p args, splitCommand ("alacritty -e fish").data = some (p, args) ∧
      joinSpace (p :: args) = ("alacritty -e fish").data ∧ ' ' ∉ p ∧
      ∀ a ∈ args, ' ' ∉ a :=
  split_command_amended ("alacritty -e fish").data

/-- C7 counterexample. With one known output `out1` that is also
focused, an `ExplicitLayout` request naming the nonexistent output
`bogus` is not dropped: the code falls back to the focused output and
recomputes its layout, while the claim's resolution rule (named output
only, focused only when no name was given) drops the request. -/
theorem explicit_layout_counterexample :
    handleExplicitLayout ⟨["out1"], some "out1", []⟩ (some "bogus") =
      ⟨["out1"], some "out1", ["out1"]⟩ ∧
    handleExplicitLayoutClaim ⟨["out1"], some "out1", []⟩ (some "bogus") =
      ⟨["out1"], some "out1", []⟩ ∧
    handleExplicitLayout ⟨["out1"], some "out1", []⟩ (some "bogus") ≠
      handleExplicitLayoutClaim ⟨["out1"], some "out1", []⟩ (some "bogus") := by
  refine ⟨rfl, rfl, ?_⟩
  decide

/-- C7 amended. An `ExplicitLayout` request recomputes layout for the
named output if the name resolves; otherwise — also when a name was
given but matches no output — for the focused output if one exists;
and only when both fail is the request dropped silently with no error
and no state change. -/
theorem explicit_layout_amended (st : LayoutModelState) (oname : Option String) :
    handleExplicitLayout st oname = handleExplicitLayoutAmended st oname := by
  cases oname with
  | none =>
    cases hf : st.focused <;>
      simp [handleExplicitLayout, handleExplicitLayoutAmended, hf]
  | some n =>
    cases hn : outputByName st n with
    | some o => simp [handleExplicitLayout, handleExplicitLayoutAmended, hn]
    | none =>
      cases hf : st.focused <;>
        simp [handleExplicitLayout, handleExplicitLayoutAmended, hn, hf]

/-- C7 amended witness: the counterexample state, where the code and
the amended rule agree on the focused-output fallback. -/
theorem explicit_layout_amended_witness :
    handleExplicitLayout ⟨["out1"], some "out1", []⟩ (some "bogus") =
      handleExplicitLayoutAmended ⟨["out1"], some "out1", []⟩ (some "bogus") :=
  explicit_layout_amended ⟨["out1"], some "out1", []⟩ (some "bogus")

/-- Between turn `t` and the turn after the threshold `K`, the
re-scheduling chain runs the action exactly at turn `K + 1`. -/
theorem scheduleRuns_window :
    ∀ (fuel t K : Nat), t ≤ K + 1 → K + 2 ≤ t + fuel →
      scheduleRuns (fun u => decide (K < u)) t fuel = [K + 1] := by
  intro fuel
  induction fuel with
  | zero => intro t K h1 h2; omega
  | succ f ih =>
    intro t K h1 h2
    by_cases ht : K < t
    · have : t = K + 1 := by omega
      simp [scheduleRuns, ht, this]
    · have h1' : t + 1 ≤ K + 1 := by omega
      have h2' : K + 2 ≤ (t + 1) + f := by omega
      simp [scheduleRuns, ht]
      exact ih (t + 1) K h1' h2'

/-- C8. `schedule` runs the action immediately, on the current turn,
when the predicate already holds; and for a predicate that is false
through turn `K` and true afterwards (it becomes true after exactly
`K` reactor turns beyond the scheduling turn 0), the action runs on
turn `K + 1` — not earlier — and exactly once, provided the reactor
keeps turning (enough fuel). -/
theorem schedule_runs_exactly_once :
    (∀ (cond : Nat → Bool) (t fuel : Nat), cond t = true →
      scheduleRuns cond t (fuel + 1) = [t]) ∧
    (∀ K fuel : Nat, K + 2 ≤ fuel →
      scheduleRuns (fun t => decide (K < t)) 0 fuel = [K + 1]) := by
  constructor
  · intro cond t fuel h
    simp [scheduleRuns, h]
  · intro K fuel h
    exact scheduleRuns_window fuel 0 K (by omega) (by omega)

/-- C8 witness: a predicate true immediately runs on the current turn;
a predicate false through turn 1 and true afterwards runs exactly on
turn 2. -/
theorem schedule_runs_exactly_once_witness :
    ((fun _ => true) 4 = true ∧ scheduleRuns (fun _ => true) 4 (9 + 1) = [4]) ∧
    (1 + 2 ≤ 5 ∧ scheduleRuns (fun t => decide (1 < t)) 0 5 = [2]) :=
  ⟨⟨rfl, schedule_runs_exactly_once.1 (fun _ => true) 4 9 rfl⟩,
   ⟨by omega, schedule_runs_exactly_once.2 1 5 (by omega)⟩⟩

end Pinnacle
